import Mathlib

/-!
Shallow embedding of `src/zadanie_3.py`, a script simulating two
non-homogeneous Poisson processes on the time grid `np.arange(0, T, dt)`,
combining them by superposition, and comparing empirical cumulative event
counts with closed-form cumulative intensities.

Modelling choices:
* Times and rates are rationals (`ℚ`); the literals `0.01`, `0.5`, `0.25`,
  `0.2`, `0.1` are exact in `ℚ`.
* `np.arange(0, T, dt)` has `⌈T/dt⌉` entries, entry `i` being `i*dt`;
  this is `arange` below.
* The process-wide random source (`np.random.poisson`) is an oracle
  parameter `rand : ℕ → ℚ → ℕ` giving, for grid index `i` and Poisson mean
  `intensity (i*dt) * dt`, the sampled increment.  The boolean mask
  `time_points[increments > 0]` is positional, hence modelled as a filter
  on grid indices followed by the grid map.
* Event arrays are `List ℚ`, count arrays are `List ℕ`.
-/

namespace Zadanie3

/-- Embedding of `np.arange(0, T, dt)`: the grid `0, dt, 2*dt, …` of
`⌈T/dt⌉` points, all strictly below `T` when `dt > 0`. -/
def arange (T dt : ℚ) : List ℚ :=
  (List.range ⌈T / dt⌉₊).map (fun i : ℕ => (i : ℚ) * dt)

/-- Embedding of `generate_poisson_process` (src/zadanie_3.py lines 17-20):
`time_points = np.arange(0, T, dt)`;
`increments = np.random.poisson(intensity_function(time_points) * dt)`;
`events = time_points[increments > 0]`.
The draw for grid index `i` is `rand i (intensity (i*dt) * dt)`; the mask
keeps grid point `i*dt` exactly when that draw is positive. -/
def generate_poisson_process (rand : ℕ → ℚ → ℕ) (intensity : ℚ → ℚ)
    (T dt : ℚ) : List ℚ :=
  ((List.range ⌈T / dt⌉₊).filter
      (fun i : ℕ => 0 < rand i (intensity ((i : ℚ) * dt) * dt))).map
    (fun i : ℕ => (i : ℚ) * dt)

/-- Embedding of `intensity_function_1` (line 32): `1 + 0.5 * t`. -/
def intensity_function_1 (t : ℚ) : ℚ := 1 + 0.5 * t

/-- Embedding of `intensity_function_2` (line 44): `4 - 0.2 * t`. -/
def intensity_function_2 (t : ℚ) : ℚ := 4 - 0.2 * t

/-- Embedding of `cumulative_f_1` (line 56): `t + 0.25 * t**2`. -/
def cumulative_f_1 (t : ℚ) : ℚ := t + 0.25 * t ^ 2

/-- Embedding of `cumulative_f_2` (line 68): `4*t - 0.1 * t**2`. -/
def cumulative_f_2 (t : ℚ) : ℚ := 4 * t - 0.1 * t ^ 2

/-- Embedding of `cumulative_events` (lines 82-84):
`time_points = np.arange(0, T, dt)`;
`event_counts = np.array([np.sum(events <= t) for t in time_points])`;
returns `(time_points, event_counts)`. -/
def cumulative_events (events : List ℚ) (T dt : ℚ) : List ℚ × List ℕ :=
  (arange T dt, (arange T dt).map (fun t => events.countP (fun e => e ≤ t)))

/-- Embedding of line 94: `np.sort(np.concatenate((process_1, process_2)))`. -/
def combined_process (p1 p2 : List ℚ) : List ℚ :=
  (p1 ++ p2).mergeSort (fun a b => a ≤ b)

/-- Embedding of line 104 (numpy elementwise `+` of the two vectorized
antiderivative evaluations on the combined time line):
`cumulative_f_1(time_line_combined) + cumulative_f_2(time_line_combined)`. -/
def theoretical_cumulative_intensity_combined (tl : List ℚ) : List ℚ :=
  List.zipWith (fun a b => a + b) (tl.map cumulative_f_1) (tl.map cumulative_f_2)

/-- Simulation horizon, line 87: `T = 10`. -/
def T : ℚ := 10

/-- Default time step of both `generate_poisson_process` and
`cumulative_events` (lines 5 and 70): `dt = 0.01`. -/
def dtDefault : ℚ := 0.01

/-! ### Helper lemmas -/

/-- Membership in the grid: exactly the multiples `i*dt` with `i < ⌈T/dt⌉`. -/
lemma mem_arange {x T dt : ℚ} :
    x ∈ arange T dt ↔ ∃ i : ℕ, i < ⌈T / dt⌉₊ ∧ x = (i : ℚ) * dt := by
  rw [arange]
  constructor
  · intro hx
    obtain ⟨i, hi, rfl⟩ := List.mem_map.mp hx
    exact ⟨i, List.mem_range.mp hi, rfl⟩
  · rintro ⟨i, hi, rfl⟩
    exact List.mem_map.mpr ⟨i, List.mem_range.mpr hi, rfl⟩

/-- For a positive step the grid is strictly increasing. -/
lemma arange_pairwise_lt {T dt : ℚ} (hdt : 0 < dt) :
    List.Pairwise (fun a b : ℚ => a < b) (arange T dt) := by
  rw [arange]
  exact List.Pairwise.map (fun i : ℕ => (i : ℚ) * dt)
    (fun a b h => mul_lt_mul_of_pos_right (by exact_mod_cast h) hdt)
    (List.pairwise_lt_range _)

/-- The count series of `cumulative_events`, unfolded. -/
lemma cumulative_events_snd (events : List ℚ) (T dt : ℚ) :
    (cumulative_events events T dt).2
      = (arange T dt).map (fun t => events.countP (fun e => e ≤ t)) := rfl

/-- Counting over the merged process is counting over the concatenation. -/
lemma combined_process_countP (p1 p2 : List ℚ) (p : ℚ → Bool) :
    (combined_process p1 p2).countP p = p1.countP p + p2.countP p := by
  rw [combined_process, List.Perm.countP_eq p (List.mergeSort_perm (p1 ++ p2) _),
    List.countP_append]

/-- The small concrete grid used by the instantiation lemmas below. -/
lemma ceil_one_div_half : ⌈(1 : ℚ) / (1/2)⌉₊ = 2 := by
  rw [show (1 : ℚ) / (1/2) = ((2 : ℕ) : ℚ) by norm_num, Nat.ceil_natCast]

/-- Evaluation of the grid with horizon `1` and step `1/2`. -/
lemma arange_one_half : arange 1 (1/2) = [0, 1/2] := by
  rw [arange, ceil_one_div_half]
  simp [List.range_succ]

/-! ### Claim theorems -/

/-- Claim C1: for every pair of event sequences, the cumulative count series
computed by `cumulative_events` (T = 10, dt = 0.01) on the sorted
concatenation of the two sequences is, at every grid point, the sum of the
two individual cumulative count series (superposition additivity). -/
theorem combined_cumulative_is_pointwise_sum (p1 p2 : List ℚ) :
    (cumulative_events (combined_process p1 p2) 10 0.01).2
      = List.zipWith (fun a b => a + b)
          (cumulative_events p1 10 0.01).2 (cumulative_events p2 10 0.01).2 := by
  rw [cumulative_events_snd, cumulative_events_snd, cumulative_events_snd,
    List.zipWith_map, List.zipWith_same]
  simp only [combined_process_countP]

/-- Claim C5: the combination step returns the ascending sort of the
concatenation of the two event sequences, with no deduplication: its length
is the sum of the input lengths and every timestamp keeps its total
multiplicity (so a timestamp present in both inputs appears twice). -/
theorem combined_process_sorted_concat (p1 p2 : List ℚ) :
    (combined_process p1 p2).length = p1.length + p2.length ∧
    List.Sorted (fun a b : ℚ => a ≤ b) (combined_process p1 p2) ∧
    ∀ x : ℚ, (combined_process p1 p2).count x = p1.count x + p2.count x := by
  refine ⟨?_, ?_, ?_⟩
  · rw [combined_process, (List.mergeSort_perm _ _).length_eq, List.length_append]
  · exact List.sorted_mergeSort' (p1 ++ p2)
  · intro x
    rw [combined_process, (List.mergeSort_perm _ _).count_eq, List.count_append]

/-- Claim C6: the closed-form cumulative intensities evaluate at `t = 10`
to `cumulative_f_1 10 = 35` and `cumulative_f_2 10 = 30`. -/
theorem cumulative_closed_forms_at_ten :
    cumulative_f_1 10 = 35 ∧ cumulative_f_2 10 = 30 := by
  constructor <;> norm_num [cumulative_f_1, cumulative_f_2]

/-- Claim C7: on any time line, the combined theoretical curve (numpy
elementwise sum of the two vectorized antiderivatives) equals, at every grid
point, the pointwise sum `cumulative_f_1 t + cumulative_f_2 t`. -/
theorem theoretical_combined_is_pointwise_sum (tl : List ℚ) :
    theoretical_cumulative_intensity_combined tl
      = tl.map (fun t => cumulative_f_1 t + cumulative_f_2 t) := by
  rw [theoretical_cumulative_intensity_combined, List.zipWith_map,
    List.zipWith_same]

/-- Claim C10: on an empty event sequence, `cumulative_events` returns the
full time grid together with an all-zero count series of the same length. -/
theorem cumulative_events_empty_input (T dt : ℚ) :
    cumulative_events [] T dt
      = (arange T dt, List.replicate (arange T dt).length 0) := by
  simp [cumulative_events, List.countP_nil, List.map_const']

/-- Claim C2: for every event sequence (per the data model, a collection of
grid time points), the count series of `cumulative_events events T dt` has
the same length as the time grid, is non-decreasing in the grid index, and
its final value is the size of the event sequence. -/
theorem cumulative_counts_length_mono_last (events : List ℚ) (T dt : ℚ)
    (hdt : 0 < dt) (hne : arange T dt ≠ [])
    (hev : ∀ x ∈ events, x ∈ arange T dt) :
    (cumulative_events events T dt).2.length = (arange T dt).length ∧
    List.Sorted (fun a b : ℕ => a ≤ b) (cumulative_events events T dt).2 ∧
    (cumulative_events events T dt).2.getLast? = some events.length := by
  have hn : ⌈T / dt⌉₊ ≠ 0 := by
    intro h0
    exact hne (by rw [arange, h0]; rfl)
  refine ⟨?_, ?_, ?_⟩
  · rw [cumulative_events_snd, List.length_map]
  · rw [cumulative_events_snd]
    exact List.Pairwise.map _
      (fun a b hab => List.countP_mono_left
        (fun e he hpe => by
          simp only [decide_eq_true_eq] at hpe ⊢
          exact le_trans hpe (le_of_lt hab)))
      (arange_pairwise_lt hdt)
  · rw [cumulative_events_snd, List.getLast?_map, arange, List.getLast?_map,
      List.getLast?_range, if_neg hn]
    simp only [Option.map_some']
    congr 1
    rw [List.countP_eq_length]
    intro e he
    obtain ⟨i, hi, rfl⟩ := mem_arange.mp (hev e he)
    simp only [decide_eq_true_eq]
    have hle : (i : ℚ) ≤ ((⌈T / dt⌉₊ - 1 : ℕ) : ℚ) := by
      exact_mod_cast Nat.le_sub_one_of_lt hi
    exact mul_le_mul_of_nonneg_right hle (le_of_lt hdt)

/-- Witness for claim C2, at `T = 1`, `dt = 1/2`, `events = [0, 1/2]`. -/
theorem cumulative_counts_length_mono_last_witness :
    (0 : ℚ) < 1/2 ∧ arange 1 (1/2) ≠ [] ∧
    (∀ x ∈ [(0 : ℚ), 1/2], x ∈ arange 1 (1/2)) ∧
    ((cumulative_events [(0 : ℚ), 1/2] 1 (1/2)).2.length
        = (arange 1 (1/2)).length ∧
      List.Sorted (fun a b : ℕ => a ≤ b)
        (cumulative_events [(0 : ℚ), 1/2] 1 (1/2)).2 ∧
      (cumulative_events [(0 : ℚ), 1/2] 1 (1/2)).2.getLast?
        = some ([(0 : ℚ), 1/2].length)) :=
  ⟨by norm_num, by rw [arange_one_half]; simp,
   by intro x hx; rwa [arange_one_half],
   cumulative_counts_length_mono_last [(0 : ℚ), 1/2] 1 (1/2) (by norm_num)
     (by rw [arange_one_half]; simp) (by intro x hx; rwa [arange_one_half])⟩

/-- Claim C3: for every random oracle, intensity function, horizon `T` and
positive step `dt`, every timestamp produced by `generate_poisson_process`
lies in the half-open interval `[0, T)`, is a multiple of `dt`, and
coincides with a point of the grid `arange T dt`. -/
theorem generated_events_on_grid (rand : ℕ → ℚ → ℕ) (intensity : ℚ → ℚ)
    (T dt : ℚ) (hdt : 0 < dt) :
    ∀ x ∈ generate_poisson_process rand intensity T dt,
      0 ≤ x ∧ x < T ∧ x ∈ arange T dt ∧ ∃ k : ℕ, x = (k : ℚ) * dt := by
  intro x hx
  unfold generate_poisson_process at hx
  obtain ⟨i, hif, rfl⟩ := List.mem_map.mp hx
  have hi : i < ⌈T / dt⌉₊ := List.mem_range.mp (List.mem_of_mem_filter hif)
  refine ⟨mul_nonneg (Nat.cast_nonneg i) (le_of_lt hdt), ?_,
    mem_arange.mpr ⟨i, hi, rfl⟩, ⟨i, rfl⟩⟩
  have hlt : (i : ℚ) < T / dt := Nat.lt_ceil.mp hi
  calc (i : ℚ) * dt < (T / dt) * dt := mul_lt_mul_of_pos_right hlt hdt
    _ = T := div_mul_cancel₀ T (ne_of_gt hdt)

/-- Evaluation of the generator at a constant positive oracle, on the small
grid with horizon `1` and step `1/2`: both grid points are kept. -/
lemma generate_const_one_eval :
    generate_poisson_process (fun _ _ => 1) (fun _ => 1) 1 (1/2)
      = [0, 1/2] := by
  unfold generate_poisson_process
  rw [ceil_one_div_half]
  simp [List.range_succ]

/-- Witness for claim C3, at the constant oracle, horizon `1`, step `1/2`,
timestamp `0`. -/
theorem generated_events_on_grid_witness :
    (0 : ℚ) < 1/2 ∧
    (0 ≤ (0 : ℚ) ∧ (0 : ℚ) < 1 ∧ (0 : ℚ) ∈ arange 1 (1/2) ∧
      ∃ k : ℕ, (0 : ℚ) = (k : ℚ) * (1/2)) :=
  ⟨by norm_num,
   generated_events_on_grid (fun _ _ => 1) (fun _ => 1) 1 (1/2) (by norm_num)
     0 (by rw [generate_const_one_eval]; simp)⟩

/-- Claim C4: the grid point `i*dt` appears among the generated timestamps
iff the Poisson draw with mean `intensity (i*dt) * dt` at that grid point is
at least 1, and its multiplicity is then exactly 1 — a draw of 2 or more
still yields a single timestamp for that grid point. -/
theorem generated_event_iff_positive_draw (rand : ℕ → ℚ → ℕ)
    (intensity : ℚ → ℚ) (T dt : ℚ) (hdt : 0 < dt) (i : ℕ)
    (hi : i < ⌈T / dt⌉₊) :
    ((i : ℚ) * dt ∈ generate_poisson_process rand intensity T dt ↔
        1 ≤ rand i (intensity ((i : ℚ) * dt) * dt)) ∧
    (generate_poisson_process rand intensity T dt).count ((i : ℚ) * dt)
      = if 1 ≤ rand i (intensity ((i : ℚ) * dt) * dt) then 1 else 0 := by
  have hinj : Function.Injective (fun k : ℕ => (k : ℚ) * dt) := by
    intro a b hab
    have h1 : (a : ℚ) = (b : ℚ) := mul_right_cancel₀ (ne_of_gt hdt) hab
    exact_mod_cast h1
  constructor
  · unfold generate_poisson_process
    constructor
    · intro hx
      obtain ⟨j, hjf, hje⟩ := List.mem_map.mp hx
      obtain ⟨hjr, hjq⟩ := List.mem_filter.mp hjf
      have hji : j = i := hinj hje
      subst hji
      simp only [decide_eq_true_eq] at hjq
      omega
    · intro hr
      refine List.mem_map.mpr
        ⟨i, List.mem_filter.mpr ⟨List.mem_range.mpr hi, ?_⟩, rfl⟩
      simp only [decide_eq_true_eq]
      omega
  · unfold generate_poisson_process
    rw [List.count_map_of_injective _ _ hinj]
    by_cases hq : 0 < rand i (intensity ((i : ℚ) * dt) * dt)
    · rw [List.count_filter (by simpa using hq), if_pos (by omega)]
      rw [List.count_eq_one_of_mem (List.nodup_range _)
        (List.mem_range.mpr hi)]
    · rw [if_neg (by omega)]
      rw [List.count_eq_zero]
      intro hmem
      exact hq (by simpa using (List.mem_filter.mp hmem).2)

/-- Witness for claim C4, at a constant oracle drawing 2, horizon `1`, step
`1/2`, grid index `0`: the draw of 2 yields exactly one timestamp. -/
theorem generated_event_iff_positive_draw_witness :
    (0 : ℚ) < 1/2 ∧ (0 : ℕ) < ⌈(1 : ℚ) / (1/2)⌉₊ ∧
    ((((0 : ℕ) : ℚ) * (1/2) ∈
        generate_poisson_process (fun _ _ => 2) (fun _ => 1) 1 (1/2) ↔
          1 ≤ 2) ∧
      (generate_poisson_process (fun _ _ => 2) (fun _ => 1) 1 (1/2)).count
          (((0 : ℕ) : ℚ) * (1/2)) = if 1 ≤ 2 then 1 else 0) :=
  ⟨by norm_num, by rw [ceil_one_div_half]; norm_num,
   generated_event_iff_positive_draw (fun _ _ => 2) (fun _ => 1) 1 (1/2)
     (by norm_num) 0 (by rw [ceil_one_div_half]; norm_num)⟩

/-- Claim C8: both concrete intensity functions are non-negative on the
simulated horizon `0 ≤ t < 10`, so every Poisson mean `intensity t * dt`
passed to the random source (with the default step `dt = 0.01`) is
non-negative and the invalid-negative-mean case is unreachable. -/
theorem intensity_means_nonneg (t : ℚ) (h0 : 0 ≤ t) (h1 : t < 10) :
    0 ≤ intensity_function_1 t ∧ 0 ≤ intensity_function_2 t ∧
    0 ≤ intensity_function_1 t * dtDefault ∧
    0 ≤ intensity_function_2 t * dtDefault := by
  have a1 : 0 ≤ intensity_function_1 t := by
    unfold intensity_function_1; linarith
  have a2 : 0 ≤ intensity_function_2 t := by
    unfold intensity_function_2; linarith
  have hd : (0 : ℚ) ≤ dtDefault := by unfold dtDefault; norm_num
  exact ⟨a1, a2, mul_nonneg a1 hd, mul_nonneg a2 hd⟩

/-- Witness for claim C8, at `t = 5`. -/
theorem intensity_means_nonneg_witness :
    (0 : ℚ) ≤ 5 ∧ (5 : ℚ) < 10 ∧
    (0 ≤ intensity_function_1 5 ∧ 0 ≤ intensity_function_2 5 ∧
      0 ≤ intensity_function_1 5 * dtDefault ∧
      0 ≤ intensity_function_2 5 * dtDefault) :=
  ⟨by norm_num, by norm_num,
   intensity_means_nonneg 5 (by norm_num) (by norm_num)⟩

/-- Claim C9: every sequence returned by a single call to
`generate_poisson_process` is strictly increasing — hence its timestamps are
pairwise distinct — and is a sublist of the strictly increasing grid,
selected by the boolean mask. -/
theorem generated_events_strictly_increasing (rand : ℕ → ℚ → ℕ)
    (intensity : ℚ → ℚ) (T dt : ℚ) (hdt : 0 < dt) :
    List.Sorted (fun a b : ℚ => a < b)
        (generate_poisson_process rand intensity T dt) ∧
    (generate_poisson_process rand intensity T dt).Nodup ∧
    (generate_poisson_process rand intensity T dt).Sublist (arange T dt) := by
  have hs : List.Pairwise (fun a b : ℚ => a < b)
      (generate_poisson_process rand intensity T dt) := by
    unfold generate_poisson_process
    exact List.Pairwise.map (fun i : ℕ => (i : ℚ) * dt)
      (fun a b h => mul_lt_mul_of_pos_right (by exact_mod_cast h) hdt)
      (List.Pairwise.filter _ (List.pairwise_lt_range _))
  refine ⟨hs, List.Pairwise.imp (fun h => ne_of_lt h) hs, ?_⟩
  unfold generate_poisson_process
  rw [arange]
  exact List.Sublist.map _ (List.filter_sublist _)

/-- Witness for claim C9, at the constant oracle, horizon `1`, step `1/2`. -/
theorem generated_events_strictly_increasing_witness :
    (0 : ℚ) < 1/2 ∧
    (List.Sorted (fun a b : ℚ => a < b)
        (generate_poisson_process (fun _ _ => 1) (fun _ => 1) 1 (1/2)) ∧
      (generate_poisson_process (fun _ _ => 1) (fun _ => 1) 1 (1/2)).Nodup ∧
      (generate_poisson_process (fun _ _ => 1) (fun _ => 1) 1 (1/2)).Sublist
        (arange 1 (1/2))) :=
  ⟨by norm_num,
   generated_events_strictly_increasing (fun _ _ => 1) (fun _ => 1) 1 (1/2)
     (by norm_num)⟩

end Zadanie3
